import Mathlib

/-!
Verification of the multiplayer game server (GameEngine.py, GameServer.py).

The development shallowly embeds the room engine (`Game` in GameEngine.py)
and the durability layer of the room server (`GameServer` in GameServer.py):
the command log, the checkpoint, replay on startup, and command dispatch.

Modelling conventions:
* Python JSON values are the inductive `PyVal`; Python dicts are ordered
  association lists with Python insert-or-overwrite semantics (`dictSet`).
* `json.loads` is `jsonLoads`, a character-level JSON parser covering the
  JSON fragment this program reads and writes; `json.dumps` is `pyDumps`,
  producing the exact separators CPython uses by default.
* Python exceptions are `Except String`; a raised exception is `.error`.
* Client positions are stored by the source as the string "x:y" and
  re-parsed on each move; the embedding stores the pair of integers and
  applies the codec `posStr` / `parsePos` at the serialization boundaries
  (checkpoint files, room snapshots, responses).
* Randomness (`random.choice`, `random.randint`) is an explicit oracle
  argument selecting an index.
-/

/-- A Python value as produced by `json.loads`: booleans, integers,
strings, lists and string-keyed dicts (the fragment this program uses). -/
inductive PyVal where
  | pbool : Bool → PyVal
  | pint : Int → PyVal
  | pstr : String → PyVal
  | plist : List PyVal → PyVal
  | pdict : List (String × PyVal) → PyVal

mutual

/-- Structural equality of Python values (Python `==` on JSON data). -/
def pyBeq : PyVal → PyVal → Bool
  | .pbool a, .pbool b => a == b
  | .pint a, .pint b => a == b
  | .pstr a, .pstr b => a == b
  | .plist a, .plist b => pyBeqArr a b
  | .pdict a, .pdict b => pyBeqFields a b
  | _, _ => false

def pyBeqArr : List PyVal → List PyVal → Bool
  | [], [] => true
  | a :: as, b :: bs => pyBeq a b && pyBeqArr as bs
  | _, _ => false

def pyBeqFields : List (String × PyVal) → List (String × PyVal) → Bool
  | [], [] => true
  | (k, v) :: as, (k2, v2) :: bs => k == k2 && pyBeq v v2 && pyBeqFields as bs
  | _, _ => false

end

instance : BEq PyVal := ⟨pyBeq⟩

mutual

theorem pyBeq_refl : ∀ a : PyVal, pyBeq a a = true
  | .pbool a => by simp [pyBeq]
  | .pint a => by simp [pyBeq]
  | .pstr a => by simp [pyBeq]
  | .plist a => by simp [pyBeq, pyBeqArr_refl a]
  | .pdict a => by simp [pyBeq, pyBeqFields_refl a]

theorem pyBeqArr_refl : ∀ l : List PyVal, pyBeqArr l l = true
  | [] => rfl
  | a :: as => by simp [pyBeqArr, pyBeq_refl a, pyBeqArr_refl as]

theorem pyBeqFields_refl : ∀ l : List (String × PyVal), pyBeqFields l l = true
  | [] => rfl
  | (k, v) :: as => by simp [pyBeqFields, pyBeq_refl v, pyBeqFields_refl as]

end

mutual

theorem pyBeq_eq : ∀ a b : PyVal, pyBeq a b = true → a = b
  | .pbool a, .pbool b => by simp [pyBeq]
  | .pint a, .pint b => by simp [pyBeq]
  | .pstr a, .pstr b => by simp [pyBeq]
  | .plist a, .plist b => by
      intro h
      rw [pyBeqArr_eq a b (by simpa [pyBeq] using h)]
  | .pdict a, .pdict b => by
      intro h
      rw [pyBeqFields_eq a b (by simpa [pyBeq] using h)]
  | .pbool _, .pint _ => by simp [pyBeq]
  | .pbool _, .pstr _ => by simp [pyBeq]
  | .pbool _, .plist _ => by simp [pyBeq]
  | .pbool _, .pdict _ => by simp [pyBeq]
  | .pint _, .pbool _ => by simp [pyBeq]
  | .pint _, .pstr _ => by simp [pyBeq]
  | .pint _, .plist _ => by simp [pyBeq]
  | .pint _, .pdict _ => by simp [pyBeq]
  | .pstr _, .pbool _ => by simp [pyBeq]
  | .pstr _, .pint _ => by simp [pyBeq]
  | .pstr _, .plist _ => by simp [pyBeq]
  | .pstr _, .pdict _ => by simp [pyBeq]
  | .plist _, .pbool _ => by simp [pyBeq]
  | .plist _, .pint _ => by simp [pyBeq]
  | .plist _, .pstr _ => by simp [pyBeq]
  | .plist _, .pdict _ => by simp [pyBeq]
  | .pdict _, .pbool _ => by simp [pyBeq]
  | .pdict _, .pint _ => by simp [pyBeq]
  | .pdict _, .pstr _ => by simp [pyBeq]
  | .pdict _, .plist _ => by simp [pyBeq]

theorem pyBeqArr_eq : ∀ a b : List PyVal, pyBeqArr a b = true → a = b
  | [], [] => by simp
  | a :: as, b :: bs => by
      intro h
      simp only [pyBeqArr, Bool.and_eq_true] at h
      rw [pyBeq_eq a b h.1, pyBeqArr_eq as bs h.2]
  | [], _ :: _ => by simp [pyBeqArr]
  | _ :: _, [] => by simp [pyBeqArr]

theorem pyBeqFields_eq :
    ∀ a b : List (String × PyVal), pyBeqFields a b = true → a = b
  | [], [] => by simp
  | (k, v) :: as, (k2, v2) :: bs => by
      intro h
      simp only [pyBeqFields, Bool.and_eq_true] at h
      obtain ⟨⟨hk, hv⟩, hrest⟩ := h
      rw [eq_of_beq hk, pyBeq_eq v v2 hv, pyBeqFields_eq as bs hrest]
  | [], _ :: _ => by simp [pyBeqFields]
  | _ :: _, [] => by simp [pyBeqFields]

end

instance : LawfulBEq PyVal where
  eq_of_beq h := pyBeq_eq _ _ h
  rfl := pyBeq_refl _

/-! ### Python dictionaries

A Python dict is an insertion-ordered association list with unique keys.
`dictSet` is `d[k] = v`: overwrite in place if the key is present,
append otherwise.  `dictGet` is `d[k]` (first — and, for dicts built by
`dictSet`, only — binding). -/

/-- Python `d.get(k)` / `d[k]`: the first binding of `k`. -/
def dictGet [BEq α] (d : List (α × β)) (k : α) : Option β :=
  match d with
  | [] => none
  | (a, b) :: rest => if a == k then some b else dictGet rest k

/-- Python `k in d`. -/
def dictHasKey [BEq α] (d : List (α × β)) (k : α) : Bool :=
  (dictGet d k).isSome

/-- Python `d[k] = v`: overwrite the binding in place, or append it. -/
def dictSet [BEq α] (d : List (α × β)) (k : α) (v : β) : List (α × β) :=
  match d with
  | [] => [(k, v)]
  | (a, b) :: rest =>
      if a == k then (a, v) :: rest else (a, b) :: dictSet rest k v

theorem dictGet_dictSet_self [BEq α] [LawfulBEq α]
    (d : List (α × β)) (k : α) (v : β) : dictGet (dictSet d k v) k = some v := by
  induction d with
  | nil => simp [dictGet, dictSet]
  | cons hd tl ih =>
      obtain ⟨a, b⟩ := hd
      by_cases h : a == k
      · simp [dictGet, dictSet, h]
      · simp only [dictSet, h, Bool.false_eq_true, if_false, dictGet, ih]

theorem dictGet_dictSet_ne [BEq α] [LawfulBEq α]
    (d : List (α × β)) (k k' : α) (v : β) (h : k ≠ k') :
    dictGet (dictSet d k v) k' = dictGet d k' := by
  induction d with
  | nil => simp [dictGet, dictSet, h]
  | cons hd tl ih =>
      obtain ⟨a, b⟩ := hd
      by_cases ha : a == k
      · have : a = k := eq_of_beq ha
        subst this
        simp [dictGet, dictSet, ha, h]
      · simp only [dictSet, ha, Bool.false_eq_true, if_false, dictGet, ih]

theorem dictGet_dictSet_cases [BEq α] [LawfulBEq α]
    (d : List (α × β)) (k k' : α) (v v' : β)
    (h : dictGet (dictSet d k v) k' = some v') :
    v' = v ∨ dictGet d k' = some v' := by
  by_cases hk : k = k'
  · subst hk
    rw [dictGet_dictSet_self] at h
    exact Or.inl (Option.some_injective _ h).symm
  · rw [dictGet_dictSet_ne d k k' v hk] at h
    exact Or.inr h

/-! ### `json.dumps` and `json.loads`

`pyDumps` reproduces CPython `json.dumps` with its default separators
(", " between members, ": " after a key).  `jsonLoads` is a character
level parser for the JSON fragment this program reads: booleans,
integers, strings, arrays and objects; a failed parse models the
`json.JSONDecodeError` exception. -/

/-- Escape of `"` and backslash inside a dumped JSON string. -/
def jEscape : List Char → List Char
  | [] => []
  | c :: rest =>
      if c = '"' ∨ c = '\\' then '\\' :: c :: jEscape rest else c :: jEscape rest

/-- A dumped JSON string literal. -/
def dumpStr (s : String) : String := "\"" ++ String.mk (jEscape s.data) ++ "\""

mutual

/-- CPython `json.dumps` with default separators. -/
def pyDumps : PyVal → String
  | .pbool b => if b then "true" else "false"
  | .pint n => toString n
  | .pstr s => dumpStr s
  | .plist l => "[" ++ pyDumpsArr l ++ "]"
  | .pdict f => "\x7b" ++ pyDumpsFields f ++ "\x7d"

def pyDumpsArr : List PyVal → String
  | [] => ""
  | [v] => pyDumps v
  | v :: rest => pyDumps v ++ ", " ++ pyDumpsArr rest

def pyDumpsFields : List (String × PyVal) → String
  | [] => ""
  | [(k, v)] => dumpStr k ++ ": " ++ pyDumps v
  | (k, v) :: rest => dumpStr k ++ ": " ++ pyDumps v ++ ", " ++ pyDumpsFields rest

end

/-- Skip JSON whitespace. -/
def jSkipWs : List Char → List Char
  | [] => []
  | c :: rest =>
      if c = ' ' ∨ c = '\n' ∨ c = '\t' ∨ c = '\r' then jSkipWs rest else c :: rest

/-- Body of a JSON string after the opening quote; handles the escapes
this program can produce. -/
def jParseStrBody : List Char → Option (List Char × List Char)
  | [] => none
  | '"' :: rest => some ([], rest)
  | '\\' :: c :: rest =>
      if c = '"' ∨ c = '\\' then
        (jParseStrBody rest).map fun p => (c :: p.1, p.2)
      else none
  | c :: rest => (jParseStrBody rest).map fun p => (c :: p.1, p.2)

/-- Longest digit run at the head of the input. -/
def jTakeDigits : List Char → List Char × List Char
  | [] => ([], [])
  | c :: rest =>
      if c.isDigit then
        match jTakeDigits rest with
        | (ds, r) => (c :: ds, r)
      else ([], c :: rest)

/-- Numeric value of a digit run. -/
def digitsVal (ds : List Char) : Nat :=
  ds.foldl (fun n c => n * 10 + (c.toNat - '0'.toNat)) 0

/-- Re-insert raw object members left to right: CPython keeps the first
position of a duplicated key and its last value. -/
def pyFieldsDedup (raw : List (String × PyVal)) : List (String × PyVal) :=
  raw.foldl (fun acc p => dictSet acc p.1 p.2) []

mutual

/-- One JSON value; fuel bounds the recursion depth. -/
def jParseVal : Nat → List Char → Option (PyVal × List Char)
  | 0, _ => none
  | fuel + 1, cs =>
    match jSkipWs cs with
    | 't' :: 'r' :: 'u' :: 'e' :: rest => some (.pbool true, rest)
    | 'f' :: 'a' :: 'l' :: 's' :: 'e' :: rest => some (.pbool false, rest)
    | '"' :: rest => (jParseStrBody rest).map fun p => (.pstr (String.mk p.1), p.2)
    | '\x7b' :: rest =>
        (match jSkipWs rest with
         | '\x7d' :: rest2 => some (.pdict [], rest2)
         | _ => (jParseFields fuel rest).map fun p => (.pdict (pyFieldsDedup p.1), p.2))
    | '[' :: rest =>
        (match jSkipWs rest with
         | ']' :: rest2 => some (.plist [], rest2)
         | _ => (jParseArr fuel rest).map fun p => (.plist p.1, p.2))
    | '-' :: rest =>
        (match jTakeDigits rest with
         | ([], _) => none
         | (ds, rest2) => some (.pint (-(digitsVal ds : Int)), rest2))
    | c :: rest =>
        if c.isDigit then
          match jTakeDigits (c :: rest) with
          | (ds, rest2) => some (.pint (digitsVal ds), rest2)
        else none
    | [] => none

/-- Members of a JSON object, starting after the opening brace. -/
def jParseFields : Nat → List Char → Option (List (String × PyVal) × List Char)
  | 0, _ => none
  | fuel + 1, cs =>
    match jSkipWs cs with
    | '"' :: rest =>
        (match jParseStrBody rest with
         | none => none
         | some (k, rest2) =>
           match jSkipWs rest2 with
           | ':' :: rest3 =>
               (match jParseVal fuel rest3 with
                | none => none
                | some (v, rest4) =>
                  match jSkipWs rest4 with
                  | ',' :: rest5 =>
                      (match jParseFields fuel rest5 with
                       | none => none
                       | some (fs, rest6) => some ((String.mk k, v) :: fs, rest6))
                  | '\x7d' :: rest5 => some ([(String.mk k, v)], rest5)
                  | _ => none)
           | _ => none)
    | _ => none

/-- Elements of a JSON array, starting after the opening bracket. -/
def jParseArr : Nat → List Char → Option (List PyVal × List Char)
  | 0, _ => none
  | fuel + 1, cs =>
    match jParseVal fuel cs with
    | none => none
    | some (v, rest) =>
      match jSkipWs rest with
      | ',' :: rest2 => (jParseArr fuel rest2).map fun p => (v :: p.1, p.2)
      | ']' :: rest2 => some ([v], rest2)
      | _ => none

end

/-- CPython `json.loads`: parse one document, allowing surrounding
whitespace; failure models `json.JSONDecodeError`. -/
def jsonLoads (s : String) : Except String PyVal :=
  match jParseVal (s.length + 2) s.data with
  | some (v, rest) => if jSkipWs rest = [] then .ok v else .error "JSONDecodeError"
  | none => .error "JSONDecodeError"

/-! ### The position codec

The source stores a board position as the string `"x:y"`
(`GameEngine.py` line 147) and re-parses it with
`map(int, pos.split(':'))` on each move (line 139).  The embedding
stores the pair and uses this codec at the serialization boundaries. -/

/-- The position f-string: decimal x, a colon, decimal y. -/
def posStr (p : Int × Int) : String := toString p.1 ++ ":" ++ toString p.2

/-- Python `str.split(':')`. -/
def splitColon : List Char → List (List Char)
  | [] => [[]]
  | c :: rest =>
      if c = ':' then [] :: splitColon rest
      else
        match splitColon rest with
        | [] => [[c]]
        | p :: ps => (c :: p) :: ps

/-- Python `int(s)` restricted to an optional sign and digits. -/
def charsToInt : List Char → Option Int
  | '-' :: rest =>
      if rest ≠ [] ∧ rest.all Char.isDigit then some (-(digitsVal rest : Int)) else none
  | cs => if cs ≠ [] ∧ cs.all Char.isDigit then some ((digitsVal cs : Int)) else none

/-- `map(int, s.split(':'))` unpacked into exactly two coordinates. -/
def parsePos (s : String) : Option (Int × Int) :=
  match splitColon s.data with
  | [a, b] =>
      (match charsToInt a, charsToInt b with
       | some x, some y => some (x, y)
       | _, _ => none)
  | _ => none

/-! ### The room engine (`Game` in GameEngine.py) -/

/-- An interactive item (GameEngine.py lines 10-16). -/
structure Item where
  name : String
  uses : Int
  use_message : String
  empty_message : String
  conflict_message : String
  emptied_this_round : Bool
deriving DecidableEq

/-- The chest template (`INTERACTIVE_ITEMS[0]`, repeated verbatim as the
fixed item at cell `1:1` in `Game.__init__`). -/
def chestItem : Item :=
  { name := "chest"
    uses := 10
    use_message := "you put your hand in the box and get a surprise"
    empty_message := "you put your hand in an empty box"
    conflict_message := "you put your hand in the box and feel someone else\x27s hand"
    emptied_this_round := false }

/-- The fire template (`INTERACTIVE_ITEMS[1]`). -/
def fireItem : Item :=
  { name := "fire"
    uses := 5
    use_message := "ow thats hot"
    empty_message := "someone cooked here"
    conflict_message := "you approach the fire but it is too crowded and you cannot find a spot"
    emptied_this_round := false }

def INTERACTIVE_ITEMS : List Item := [chestItem, fireItem]

def INTERACT_FAIL_MESSAGES : List String :=
  [ "you tried but there was nothing there"
  , "you reach out and are disappointed"
  , "you interact with the floor"
  , "you tried to become one with the floor"
  , "slow it down, not right now" ]

/-- `random.choice(l)` with the chosen index supplied by an oracle. -/
def pyChoice (l : List α) (d : α) (oracle : Nat) : α :=
  l.getD (oracle % l.length) d

/-- `choice(INTERACT_ON_OTHER_USER).format(collided_users=arg)`: the five
templates of `INTERACT_ON_OTHER_USER` with the substitution applied. -/
def formatOnOtherUser (oracle : Nat) (collided_users : String) : String :=
  match oracle % 5 with
  | 0 => "You look at " ++ collided_users ++ " awkwardly"
  | 1 => collided_users ++ " stare at you, you cant help but notice their concerned looks"
  | 2 => collided_users ++ " turn to look at you"
  | 3 => "...hi!"
  | _ => "WHAT ARE YOU LOOKING AT?!?"

/-- State of one room engine: the client-to-position dict and the
position-to-item dict.  Room keys are the raw `"x:y"` strings, exactly as
in the source; client ids are arbitrary Python values. -/
structure Game where
  clients : List (PyVal × (Int × Int))
  room : List (String × Item)

def room_dimension : Int := 8

/-- Python `sorted((a, b, c))` via insertion sort. -/
def pyInsertSorted (x : Int) : List Int → List Int
  | [] => [x]
  | y :: ys => if x ≤ y then x :: y :: ys else y :: pyInsertSorted x ys

def pySorted (l : List Int) : List Int := l.foldr pyInsertSorted []

/-- `sorted((a, b, c))[1]`, the clamping rule of `Game._move`. -/
def sortedMid (a b c : Int) : Int := (pySorted [a, b, c]).getD 1 0

/-- `Game.__init__` (lines 73-119): a random cell gets a random template
and cell `1:1` gets a fixed chest; `rand*` are the `randint(0, 8)` and
`choice` oracles.  If the random cell is `1:1` the later literal entry
wins, as in the Python dict literal. -/
def Game.init (randX randY pick : Nat) : Game :=
  { clients := []
    room :=
      dictSet (dictSet [] (posStr ((randX % 9 : Nat), ((randY % 9 : Nat) : Int)))
          (pyChoice INTERACTIVE_ITEMS chestItem pick)) "1:1" chestItem }

/-- `Game.add_client` (lines 121-130). -/
def Game.add_client (g : Game) (client : PyVal) : PyVal × Game :=
  match dictGet g.clients client with
  | some pos => (.pdict [("client_id", client), ("pos", .pstr (posStr pos))], g)
  | none =>
      let pos : Int × Int := (room_dimension / 2, room_dimension / 2)
      ( .pdict [("client_id", client), ("pos", .pstr (posStr pos))],
        { g with clients := dictSet g.clients client pos } )

/-- `Game._move` (lines 132-156).  Every caller has checked membership;
the impossible missing-client case returns the state unchanged. -/
def Game.move (g : Game) (client : PyVal) (x y : Int) : Game × Bool :=
  match dictGet g.clients client with
  | none => (g, false)
  | some (client_x, client_y) =>
      let desired_x := client_x + x
      let new_x := sortedMid 0 desired_x room_dimension
      let desired_y := client_y + y
      let new_y := sortedMid 0 desired_y room_dimension
      let g' := { g with clients := dictSet g.clients client (new_x, new_y) }
      -- a vertical difference deliberately does not signal an exit
      (g', decide (new_x ≠ desired_x))

/-- `Game.up` (lines 158-166): the exit flag of `_move` is ignored. -/
def Game.up (g : Game) (client : PyVal) : PyVal × Game :=
  if dictHasKey g.clients client then
    (.pdict [("success", .pstr "move up")], (g.move client 0 1).1)
  else (.pdict [("error", .pstr "client not in room")], g)

/-- `Game.down` (lines 168-176). -/
def Game.down (g : Game) (client : PyVal) : PyVal × Game :=
  if dictHasKey g.clients client then
    (.pdict [("success", .pstr "move down")], (g.move client 0 (-1)).1)
  else (.pdict [("error", .pstr "client not in room")], g)

/-- `Game.left` (lines 178-187). -/
def Game.left (g : Game) (client : PyVal) : PyVal × Game :=
  if dictHasKey g.clients client then
    let p := g.move client (-1) 0
    if p.2 then (.pdict [("success", .pstr "exit left")], p.1)
    else (.pdict [("success", .pstr "move left")], p.1)
  else (.pdict [("error", .pstr "client not in room")], g)

/-- `Game.right` (lines 189-198). -/
def Game.right (g : Game) (client : PyVal) : PyVal × Game :=
  if dictHasKey g.clients client then
    let p := g.move client 1 0
    if p.2 then (.pdict [("success", .pstr "exit right")], p.1)
    else (.pdict [("success", .pstr "move right")], p.1)
  else (.pdict [("error", .pstr "client not in room")], g)

/-- Display form of a client id inside a collision message (ids are
strings in every run of the system). -/
def pyDisplay : PyVal → String
  | .pstr s => s
  | v => pyDumps v

/-- The grammar fixup of `Game.interact`: prepend `and ` to the last of
two or more colliding names. -/
def andLast : List String → List String
  | [] => []
  | [x] => [x]
  | l => l.dropLast ++ ["and " ++ l.getLastD ""]

/-- `Game.interact` (lines 200-242).  `self.clients[client]` raises
`KeyError` when the client is absent: modelled by `.error`. -/
def Game.interact (g : Game) (client : PyVal) (oracle : Nat) : Except String (PyVal × Game) :=
  match dictGet g.clients client with
  | none => .error "KeyError"
  | some pos =>
      match dictGet g.room (posStr pos) with
      | some it =>
          if !it.emptied_this_round then
            if it.uses == 0 then
              .ok (.pdict [("msg", .pstr it.empty_message)], g)
            else
              let it1 := { it with uses := it.uses - 1 }
              let it2 :=
                if it1.uses == 0 then { it1 with emptied_this_round := true } else it1
              .ok ( .pdict [("msg", .pstr it2.use_message)],
                    { g with room := dictSet g.room (posStr pos) it2 } )
          else .ok (.pdict [("msg", .pstr it.conflict_message)], g)
      | none =>
          let matching_clients :=
            (g.clients.filter fun p => !pyBeq p.1 client && decide (p.2 = pos)).map
              fun p => pyDisplay p.1
          if matching_clients.isEmpty then
            .ok (.pdict [("msg", .pstr (pyChoice INTERACT_FAIL_MESSAGES "" oracle))], g)
          else
            let fixed := andLast matching_clients
            let joined :=
              if fixed.length > 2 then String.intercalate ", " fixed
              else String.intercalate " " fixed
            .ok (.pdict [("msg", .pstr (formatOnOtherUser oracle joined))], g)

/-- `Game.clear_empty_markers` (lines 244-249). -/
def Game.clear_empty_markers (g : Game) : Game :=
  { g with room := g.room.map fun p => (p.1, { p.2 with emptied_this_round := false }) }

/-- Key coercion `json` applies when a response dict is serialized;
inside `get_room` the merged dict simply holds these keys. -/
def pyKeyStr : PyVal → String
  | .pstr s => s
  | v => pyDumps v

/-- The merged map built by `Game.get_room` (lines 251-261):
`room_items = {val[name]: key for key, val in self.room.items()}`
then `room_items |= connected_clients`. -/
def Game.get_room_items (g : Game) (connected_clients : List (PyVal × String)) :
    List (PyVal × String) :=
  let room_items := g.room.foldl (fun acc p => dictSet acc (PyVal.pstr p.2.name) p.1) []
  connected_clients.foldl (fun acc p => dictSet acc p.1 p.2) room_items

/-- `Game.get_room`: wrap the merged map as the `room` response. -/
def Game.get_room (g : Game) (connected_clients : List (PyVal × String)) : PyVal :=
  .pdict [("room", .pdict ((g.get_room_items connected_clients).map
    fun p => (pyKeyStr p.1, .pstr p.2)))]

/-! ### The room server durability layer (GameServer.py)

Only the `Game`-engine server is embedded: every `isinstance(self.engine,
Game)` test in the source is true here (cluster servers neither log nor
checkpoint).  Files are value-level: the log file is its list of lines,
the checkpoint and the transient `name.ckpt.new` are optional line
lists (absent file = `none`). -/

structure ServerState where
  engine : Game
  logFile : List String
  log_length : Nat
  ckpt : Option (List String)
  ckptNew : Option (List String)
  connections : List (PyVal × PyVal)
  socket_id_map : List (Nat × PyVal)
  errors : Nat

/-- The item dict as serialized into a checkpoint (template key order). -/
def itemToPy (it : Item) : PyVal :=
  .pdict
    [ ("name", .pstr it.name)
    , ("uses", .pint it.uses)
    , ("use_message", .pstr it.use_message)
    , ("empty_message", .pstr it.empty_message)
    , ("conflict_message", .pstr it.conflict_message)
    , ("emptied_this_round", .pbool it.emptied_this_round) ]

def roomToPy (room : List (String × Item)) : PyVal :=
  .pdict (room.map fun p => (p.1, itemToPy p.2))

def clientsToPy (clients : List (PyVal × (Int × Int))) : PyVal :=
  .pdict (clients.map fun p => (pyKeyStr p.1, .pstr (posStr p.2)))

/-- Decode a checkpointed item dict back into an `Item`. -/
def itemOfPy : PyVal → Option Item
  | .pdict f =>
      match dictGet f "name", dictGet f "uses", dictGet f "use_message",
            dictGet f "empty_message", dictGet f "conflict_message",
            dictGet f "emptied_this_round" with
      | some (.pstr n), some (.pint u), some (.pstr um), some (.pstr em),
        some (.pstr cm), some (.pbool e) =>
          some { name := n, uses := u, use_message := um, empty_message := em,
                 conflict_message := cm, emptied_this_round := e }
      | _, _, _, _, _, _ => none
  | _ => none

def roomFromPy (f : List (String × PyVal)) : Option (List (String × Item)) :=
  f.mapM fun p => (itemOfPy p.2).map fun it => (p.1, it)

def clientsFromPy (f : List (String × PyVal)) : Option (List (PyVal × (Int × Int))) :=
  f.mapM fun p =>
    match p.2 with
    | .pstr s => (parsePos s).map fun xy => (PyVal.pstr p.1, xy)
    | _ => none

/-- `GameServer._truncate_log` (lines 322-331). -/
def truncate_log (s : ServerState) : ServerState :=
  { s with logFile := [], log_length := 0 }

/-- `GameServer._update_ckpt` (lines 293-320): write room then clients to
`name.ckpt.new`, atomically rename it over `name.ckpt`, truncate the log. -/
def update_ckpt (s : ServerState) : ServerState :=
  let newLines := [ pyDumps (roomToPy s.engine.room) ++ "\n"
                  , pyDumps (clientsToPy s.engine.clients) ++ "\n" ]
  let s1 := { s with ckptNew := some newLines }
  let s2 := { s1 with ckpt := s1.ckptNew, ckptNew := none }
  truncate_log s2

/-- `GameServer._load_server` (lines 218-266).  Only `FileNotFoundError`
is caught: a line that fails `json.loads` propagates as `.error`.  A
parsed room whose members do not have the item shape is outside the
modelled fragment (the source would store it unchecked and fail on first
use); the embedding keeps the current state for such members. -/
def load_server (g : Game) (ckptFile : Option (List String)) : Except String Game :=
  match ckptFile with
  | none => .ok g
  | some ckpt_lines => do
      let strs :=
        if ckpt_lines.length ≠ 2 then ("\x7b\x7d", "\x7b\x7d")
        else (ckpt_lines.getD 0 "", ckpt_lines.getD 1 "")
      let new_room ← jsonLoads strs.1
      let new_clients ← jsonLoads strs.2
      match new_room, new_clients with
      | .pdict rf, .pdict cf =>
          let g1 := if !rf.isEmpty then { g with room := (roomFromPy rf).getD g.room } else g
          let g2 :=
            if !cf.isEmpty then { g1 with clients := (clientsFromPy cf).getD g1.clients } else g1
          .ok g2
      | _, _ => .ok g

/-- `{c: self.engine.clients[c] for c in self.socket_id_map.values()}`
(line 382); a stale socket entry raises `KeyError`. -/
def aliveClients (s : ServerState) : Except String (List (PyVal × String)) :=
  (s.socket_id_map.map fun p => p.2).foldlM
    (fun acc c =>
      match dictGet s.engine.clients c with
      | some pos => .ok (dictSet acc c (posStr pos))
      | none => .error "KeyError")
    []

/-- The keys of the `command_map` of `Game` (GameEngine.py lines 95-103). -/
def commandMapKeys : List String :=
  ["add_client", "up", "down", "left", "right", "interact", "get_room"]

/-- One engine call through `self.engine.command_map` (lines 381-387). -/
def dispatch (s : ServerState) (mname : String) (client : PyVal) (oracle : Nat) :
    Except String (PyVal × Game) :=
  match mname with
  | "add_client" => .ok (s.engine.add_client client)
  | "up" => .ok (s.engine.up client)
  | "down" => .ok (s.engine.down client)
  | "left" => .ok (s.engine.left client)
  | "right" => .ok (s.engine.right client)
  | "interact" => s.engine.interact client oracle
  | "get_room" => do
      let alive ← aliveClients s
      .ok (s.engine.get_room alive, s.engine)
  | _ => .error "unreachable: method was checked against command_map"

/-- The append of lines 390-397: write `json.dumps(cmd) + newline`,
bump `log_length`, and checkpoint when it exceeds 100. -/
def logAppend (s : ServerState) (incoming : PyVal) : ServerState :=
  let s1 := { s with logFile := s.logFile ++ [pyDumps incoming ++ "\n"],
                     log_length := s.log_length + 1 }
  if s1.log_length > 100 then update_ckpt s1 else s1

def respHasError : PyVal → Bool
  | .pdict f => dictHasKey f "error"
  | _ => false

/-- `GameServer._parse_command` (lines 349-404).  Returns the state (all
effects up to a raised exception persist) and the reply, `.error` when a
dispatched handler raises.  A non-dict command raises `TypeError` at the
`in` test, as in Python. -/
def parse_command (s : ServerState) (incoming : PyVal) (read_from_log : Bool)
    (oracle : Nat) : ServerState × Except String PyVal :=
  match incoming with
  | .pdict fields =>
      if !(dictHasKey fields "method" && dictHasKey fields "client") then
        ( { s with errors := s.errors + 1 },
          .ok (.pdict [("error", .pstr "malformed incomming command")]) )
      else
        let client := (dictGet fields "client").getD (.pstr "")
        let s1 :=
          match dictGet fields "broadcast_addr" with
          | some addr => { s with connections := dictSet s.connections client addr }
          | none => s
        let methodv := (dictGet fields "method").getD (.pstr "")
        match methodv with
        | .pstr mname =>
            if commandMapKeys.contains mname then
              match dispatch s1 mname client oracle with
              | .error e => (s1, .error e)
              | .ok (resp, engine') =>
                  let s2 := { s1 with engine := engine' }
                  let s3 := if !read_from_log then logAppend s2 incoming else s2
                  ( if respHasError resp then { s3 with errors := s3.errors + 1 } else s3,
                    .ok resp )
            else
              ( { s1 with errors := s1.errors + 1 },
                .ok (.pdict [("error", .pstr ("method " ++ mname
                      ++ " does not exist for engine: Game"))]) )
        | _ =>
            ( { s1 with errors := s1.errors + 1 },
              .ok (.pdict [("error", .pstr "method does not exist for engine: Game")]) )
  | _ => (s, .error "TypeError")

/-- `GameServer._load_from_log` (lines 268-291): replay every line of the
current log; a line whose parse or dispatch raises is dropped, with all
effects before the raise kept.  The call on line 285 leaves
`read_from_log` at its default `False`. -/
def load_from_log (s : ServerState) (oracle : Nat) : ServerState :=
  s.logFile.foldl
    (fun st line =>
      match jsonLoads line with
      | .ok jdata => (parse_command st jdata false oracle).1
      | .error _ => st)
    s

/-! ### Helper lemmas about clamping and dict updates -/

theorem sortedMid_clamp (d : Int) : sortedMid 0 d 8 = max 0 (min d 8) := by
  unfold sortedMid pySorted
  simp only [List.foldr]
  rw [show pyInsertSorted 8 [] = [8] from rfl]
  by_cases hd8 : d ≤ 8
  · have e1 : pyInsertSorted d [8] = [d, 8] := by simp [pyInsertSorted, hd8]
    rw [e1]
    by_cases h0d : (0 : Int) ≤ d
    · have e2 : pyInsertSorted 0 [d, 8] = [0, d, 8] := by simp [pyInsertSorted, h0d]
      rw [e2]; simp [List.getD]; omega
    · have e2 : pyInsertSorted 0 [d, 8] = [d, 0, 8] := by
        simp [pyInsertSorted, h0d, show (0 : Int) ≤ 8 by norm_num]
      rw [e2]; simp [List.getD]; omega
  · have e1 : pyInsertSorted d [8] = [8, d] := by simp [pyInsertSorted, hd8]
    rw [e1]
    have e2 : pyInsertSorted 0 [8, d] = [0, 8, d] := by
      simp [pyInsertSorted, show (0 : Int) ≤ 8 by norm_num]
    rw [e2]; simp [List.getD]; omega

theorem sortedMid_clamp_mem (d : Int) : 0 ≤ sortedMid 0 d 8 ∧ sortedMid 0 d 8 ≤ 8 := by
  rw [sortedMid_clamp]; omega

theorem sortedMid_eq_self_iff (d : Int) : sortedMid 0 d 8 = d ↔ 0 ≤ d ∧ d ≤ 8 := by
  rw [sortedMid_clamp]; omega

theorem dictSet_same [BEq α] [LawfulBEq α] (d : List (α × β)) (k : α) (v : β)
    (h : dictGet d k = some v) : dictSet d k v = d := by
  induction d with
  | nil => simp [dictGet] at h
  | cons hd tl ih =>
      obtain ⟨a, b⟩ := hd
      by_cases ha : a == k
      · simp only [dictGet, ha, if_true] at h
        simp only [dictSet, ha, if_true]
        rw [Option.some_inj] at h
        rw [h]
      · simp only [dictGet, ha, Bool.false_eq_true, if_false] at h
        simp only [dictSet, ha, Bool.false_eq_true, if_false, ih h]

theorem dictHasKey_of_get [BEq α] (d : List (α × β)) (k : α) (v : β)
    (h : dictGet d k = some v) : dictHasKey d k = true := by
  simp [dictHasKey, h]

/-! ### Claim C9 -/

/-- C9: `add_client` is idempotent: the first call for a client id inserts
it at the room center `4:4` and returns the client id and position;
every subsequent call returns the same response shape with the current
position and leaves the engine state (clients and room) unchanged. -/
theorem C9_add_client_idempotent (g : Game) (c : PyVal) :
    (dictGet g.clients c = none →
      g.add_client c =
        ( .pdict [("client_id", c), ("pos", .pstr "4:4")],
          { g with clients := dictSet g.clients c (4, 4) } )) ∧
    (∀ p, dictGet g.clients c = some p →
      g.add_client c = (.pdict [("client_id", c), ("pos", .pstr (posStr p))], g)) := by
  constructor
  · intro h
    simp only [Game.add_client, h]
    rfl
  · intro p h
    simp only [Game.add_client, h]

/-- Witness for C9 at a concrete engine: inserting a fresh client `a`
into an empty room. -/
theorem C9_add_client_idempotent_witness :
    Game.add_client { clients := [], room := [] } (.pstr "a")
      = ( .pdict [("client_id", .pstr "a"), ("pos", .pstr "4:4")],
          { clients := [(.pstr "a", (4, 4))], room := [] } ) :=
  (C9_add_client_idempotent { clients := [], room := [] } (.pstr "a")).1 rfl

/-! ### Claim C6 -/

/-- The item state after one successful use: `uses` drops by one and
`emptied_this_round` is set exactly when the decrement reached zero. -/
def itemAfterUse (it : Item) : Item :=
  { it with uses := it.uses - 1, emptied_this_round := it.uses - 1 == 0 }

/-- C6: `interact` for a client standing on an item cell: if
`emptied_this_round` the conflict message is returned and nothing
changes; else if `uses == 0` the empty message is returned and nothing
changes; else `uses` drops by exactly one, the use message is returned,
and `emptied_this_round` becomes true exactly when the decrement reached
zero. -/
theorem C6_interact_item_cases (g : Game) (c : PyVal) (p : Int × Int) (it : Item)
    (oracle : Nat) (hc : dictGet g.clients c = some p)
    (hr : dictGet g.room (posStr p) = some it) :
    (it.emptied_this_round = true →
      g.interact c oracle = .ok (.pdict [("msg", .pstr it.conflict_message)], g)) ∧
    (it.emptied_this_round = false → it.uses = 0 →
      g.interact c oracle = .ok (.pdict [("msg", .pstr it.empty_message)], g)) ∧
    (it.emptied_this_round = false → it.uses ≠ 0 →
      g.interact c oracle =
        .ok ( .pdict [("msg", .pstr it.use_message)],
              { g with room := dictSet g.room (posStr p) (itemAfterUse it) } )) := by
  refine ⟨fun he => ?_, fun he hu => ?_, fun he hu => ?_⟩
  · simp only [Game.interact, hc, hr, he, Bool.not_true, Bool.false_eq_true, if_false]
  · simp only [Game.interact, hc, hr, he, Bool.not_false, if_true, hu]
    simp
  · simp only [Game.interact, hc, hr, he, Bool.not_false, if_true]
    rw [if_neg (by simpa using hu)]
    by_cases hz : it.uses - 1 == 0
    · simp only [hz, if_true]
      simp only [beq_iff_eq] at hz
      simp [itemAfterUse, hz]
    · simp only [hz, Bool.false_eq_true, if_false]
      simp only [beq_iff_eq] at hz
      have hb : (it.uses - 1 == 0) = false := beq_eq_false_iff_ne.mpr hz
      simp [itemAfterUse, hb]

/-- Witness for C6: a client on the fire item (5 uses, not emptied)
uses it once; uses drop to 4 and no empty marker is set. -/
theorem C6_interact_item_cases_witness :
    Game.interact { clients := [(.pstr "a", (2, 3))], room := [("2:3", fireItem)] }
        (.pstr "a") 0
      = .ok ( .pdict [("msg", .pstr "ow thats hot")],
              { clients := [(.pstr "a", (2, 3))],
                room := [("2:3", itemAfterUse fireItem)] } ) := by
  have h := (C6_interact_item_cases
    { clients := [(.pstr "a", (2, 3))], room := [("2:3", fireItem)] }
    (.pstr "a") (2, 3) fireItem 0 rfl rfl).2.2 rfl (by decide)
  rw [h]
  rfl

/-! ### Claim C7 -/

/-- C7: a room exit is signalled only by `left` / `right` and only when
the attempted x coordinate is outside `[0, 8]`; `up` and `down` always
answer `move up` / `move down`, and at the vertical walls (`y = 8` for
`up`, `y = 0` for `down`) they leave the engine state unchanged.  The
horizontal handlers store the clamped position. -/
theorem C7_exit_only_horizontal (g : Game) (c : PyVal) (x y : Int)
    (hc : dictGet g.clients c = some (x, y)) :
    ((g.up c).1 = .pdict [("success", .pstr "move up")]) ∧
    ((g.down c).1 = .pdict [("success", .pstr "move down")]) ∧
    (0 ≤ x → x ≤ 8 → y = 8 → g.up c = (.pdict [("success", .pstr "move up")], g)) ∧
    (0 ≤ x → x ≤ 8 → y = 0 → g.down c = (.pdict [("success", .pstr "move down")], g)) ∧
    ((g.left c).1 = .pdict [("success", .pstr "exit left")] ↔ x - 1 < 0 ∨ 8 < x - 1) ∧
    ((g.right c).1 = .pdict [("success", .pstr "exit right")] ↔ x + 1 < 0 ∨ 8 < x + 1) ∧
    ((g.left c).2
      = { g with clients := dictSet g.clients c (sortedMid 0 (x - 1) 8, sortedMid 0 y 8) }) ∧
    ((g.right c).2
      = { g with clients := dictSet g.clients c (sortedMid 0 (x + 1) 8, sortedMid 0 y 8) }) := by
  obtain ⟨cl, rm⟩ := g
  simp only [Game.clients] at hc
  have hk : dictHasKey cl c = true := dictHasKey_of_get _ _ _ hc
  have hmU : Game.move ⟨cl, rm⟩ c 0 1 =
      (⟨dictSet cl c (sortedMid 0 (x + 0) 8, sortedMid 0 (y + 1) 8), rm⟩,
        decide (sortedMid 0 (x + 0) 8 ≠ x + 0)) := by
    simp only [Game.move, hc, room_dimension]
  have hmD : Game.move ⟨cl, rm⟩ c 0 (-1) =
      (⟨dictSet cl c (sortedMid 0 (x + 0) 8, sortedMid 0 (y + -1) 8), rm⟩,
        decide (sortedMid 0 (x + 0) 8 ≠ x + 0)) := by
    simp only [Game.move, hc, room_dimension]
  have hmL : Game.move ⟨cl, rm⟩ c (-1) 0 =
      (⟨dictSet cl c (sortedMid 0 (x + -1) 8, sortedMid 0 (y + 0) 8), rm⟩,
        decide (sortedMid 0 (x + -1) 8 ≠ x + -1)) := by
    simp only [Game.move, hc, room_dimension]
  have hmR : Game.move ⟨cl, rm⟩ c 1 0 =
      (⟨dictSet cl c (sortedMid 0 (x + 1) 8, sortedMid 0 (y + 0) 8), rm⟩,
        decide (sortedMid 0 (x + 1) 8 ≠ x + 1)) := by
    simp only [Game.move, hc, room_dimension]
  refine ⟨?_, ?_, ?_, ?_, ?_, ?_, ?_, ?_⟩
  · simp only [Game.up, hk, if_true]
  · simp only [Game.down, hk, if_true]
  · intro h0 h8 hy
    subst hy
    simp only [Game.up, hk, if_true, hmU]
    have e1 : sortedMid 0 (x + 0) 8 = x := by rw [sortedMid_clamp]; omega
    have e2 : sortedMid 0 ((8 : Int) + 1) 8 = 8 := by decide
    rw [e1, e2, dictSet_same cl c (x, 8) hc]
  · intro h0 h8 hy
    subst hy
    simp only [Game.down, hk, if_true, hmD]
    have e1 : sortedMid 0 (x + 0) 8 = x := by rw [sortedMid_clamp]; omega
    have e2 : sortedMid 0 ((0 : Int) + -1) 8 = 0 := by decide
    rw [e1, e2, dictSet_same cl c (x, 0) hc]
  · simp only [Game.left, hk, if_true, hmL]
    split
    · rename_i h
      simp only [decide_eq_true_eq] at h
      have hb : ¬(0 ≤ x + -1 ∧ x + -1 ≤ 8) :=
        fun b => h ((sortedMid_eq_self_iff _).mpr b)
      exact ⟨fun _ => by omega, fun _ => rfl⟩
    · rename_i h
      simp only [decide_eq_true_eq, not_not] at h
      have hb := (sortedMid_eq_self_iff _).mp h
      refine ⟨fun heq => ?_, fun hor => absurd hor (by omega)⟩
      exact absurd heq (by simp)
  · simp only [Game.right, hk, if_true, hmR]
    split
    · rename_i h
      simp only [decide_eq_true_eq] at h
      have hb : ¬(0 ≤ x + 1 ∧ x + 1 ≤ 8) :=
        fun b => h ((sortedMid_eq_self_iff _).mpr b)
      exact ⟨fun _ => by omega, fun _ => rfl⟩
    · rename_i h
      simp only [decide_eq_true_eq, not_not] at h
      have hb := (sortedMid_eq_self_iff _).mp h
      refine ⟨fun heq => ?_, fun hor => absurd hor (by omega)⟩
      exact absurd heq (by simp)
  · simp only [Game.left, hk, if_true, hmL]
    have ex : x + -1 = x - 1 := by ring
    have ey : y + 0 = y := by ring
    rw [ex, ey]
    split <;> rfl
  · simp only [Game.right, hk, if_true, hmR]
    have ey : y + 0 = y := by ring
    rw [ey]
    split <;> rfl

/-- Witness for C7: a client at `(0, 4)`; moving left signals
`exit left` (attempted x = -1 is outside the room). -/
theorem C7_exit_only_horizontal_witness :
    (Game.left { clients := [(.pstr "a", (0, 4))], room := [] } (.pstr "a")).1
      = .pdict [("success", .pstr "exit left")] :=
  (C7_exit_only_horizontal { clients := [(.pstr "a", (0, 4))], room := [] }
    (.pstr "a") 0 4 rfl).2.2.2.2.1.mpr (by decide)

/-! ### Claim C5 -/

/-- One of the four movement commands. -/
inductive MoveCmd where
  | up
  | down
  | left
  | right

/-- Engine effect of one movement command for one client. -/
def applyMove (g : Game) (mc : MoveCmd × PyVal) : Game :=
  match mc.1 with
  | .up => (g.up mc.2).2
  | .down => (g.down mc.2).2
  | .left => (g.left mc.2).2
  | .right => (g.right mc.2).2

/-- Client `c` is on the board of `g` wherever it is present. -/
def inBoard (g : Game) (c : PyVal) : Prop :=
  ∀ x y, dictGet g.clients c = some (x, y) → 0 ≤ x ∧ x ≤ 8 ∧ 0 ≤ y ∧ y ≤ 8

theorem move_preserves_inBoard (g : Game) (c c2 : PyVal) (dx dy : Int)
    (h : inBoard g c) : inBoard (g.move c2 dx dy).1 c := by
  unfold Game.move
  cases hget : dictGet g.clients c2 with
  | none => simpa using h
  | some p =>
      obtain ⟨a, b⟩ := p
      intro x y hxy
      simp only [room_dimension] at hxy
      rcases dictGet_dictSet_cases _ _ _ _ _ hxy with h1 | h1
      · have hx := sortedMid_clamp_mem (a + dx)
        have hy := sortedMid_clamp_mem (b + dy)
        have : x = sortedMid 0 (a + dx) 8 ∧ y = sortedMid 0 (b + dy) 8 := by
          simpa [Prod.ext_iff] using h1
        omega
      · exact h x y h1

theorem applyMove_preserves (g : Game) (c : PyVal) (mc : MoveCmd × PyVal)
    (h : inBoard g c) : inBoard (applyMove g mc) c := by
  obtain ⟨m, c2⟩ := mc
  cases m
  case up =>
    simp only [applyMove, Game.up]
    split
    · exact move_preserves_inBoard g c c2 0 1 h
    · exact h
  case down =>
    simp only [applyMove, Game.down]
    split
    · exact move_preserves_inBoard g c c2 0 (-1) h
    · exact h
  case left =>
    simp only [applyMove, Game.left]
    split
    · split
      · exact move_preserves_inBoard g c c2 (-1) 0 h
      · exact move_preserves_inBoard g c c2 (-1) 0 h
    · exact h
  case right =>
    simp only [applyMove, Game.right]
    split
    · split
      · exact move_preserves_inBoard g c c2 1 0 h
      · exact move_preserves_inBoard g c c2 1 0 h
    · exact h

/-- C5: a client freshly inserted by `add_client` starts at the center,
and after any finite sequence of `up` / `down` / `left` / `right`
commands (addressed to any clients) its coordinates satisfy
`0 ≤ x ≤ 8` and `0 ≤ y ≤ 8`: each attempted coordinate is clamped to
`sorted((0, c, 8))[1]`. -/
theorem C5_positions_bounded (g : Game) (c : PyVal) (cmds : List (MoveCmd × PyVal))
    (hfresh : dictGet g.clients c = none) (x y : Int)
    (hxy : dictGet (cmds.foldl applyMove (g.add_client c).2).clients c = some (x, y)) :
    0 ≤ x ∧ x ≤ 8 ∧ 0 ≤ y ∧ y ≤ 8 := by
  have h0 : inBoard (g.add_client c).2 c := by
    intro a b hab
    simp only [Game.add_client, hfresh] at hab
    rcases dictGet_dictSet_cases _ _ _ _ _ hab with h1 | h1
    · have : a = room_dimension / 2 ∧ b = room_dimension / 2 := by
        simpa [Prod.ext_iff] using h1
      simp only [room_dimension] at this
      omega
    · rw [hfresh] at h1
      exact absurd h1 (by simp)
  have hinv : ∀ (l : List (MoveCmd × PyVal)) (g0 : Game),
      inBoard g0 c → inBoard (l.foldl applyMove g0) c := by
    intro l
    induction l with
    | nil => intro g0 hg; simpa using hg
    | cons hd tl ih =>
        intro g0 hg
        exact ih _ (applyMove_preserves g0 c hd hg)
  exact hinv cmds _ h0 x y hxy

/-- Witness for C5: from an empty engine, `add_client` then `left`,
`left`, `up` for client `a` ends at `(2, 5)`, inside the board. -/
theorem C5_positions_bounded_witness :
    0 ≤ (2 : Int) ∧ (2 : Int) ≤ 8 ∧ 0 ≤ (5 : Int) ∧ (5 : Int) ≤ 8 :=
  C5_positions_bounded { clients := [], room := [] } (.pstr "a")
    [(.left, .pstr "a"), (.left, .pstr "a"), (.up, .pstr "a")] rfl 2 5 (by decide)

/-! ### Claim C3 -/

/-- C3: the spec says `interact` always returns a `msg` response and
never raises, including for an unknown client; the code indexes
`self.clients[client]` with no membership check (unlike the four
movement handlers), so an absent client raises `KeyError`. -/
theorem C3_interact_raises_for_absent_client :
    Game.interact { clients := [], room := [("1:1", chestItem)] } (.pstr "alice") 0
      = .error "KeyError" := rfl

/-! ### Dict-fold lemmas for the `get_room` merge -/

theorem dictGet_dictSet_isSome [BEq α] [LawfulBEq α] (d : List (α × β)) (k k' : α) (v : β)
    (h : (dictGet d k').isSome = true) : (dictGet (dictSet d k v) k').isSome = true := by
  by_cases hk : k = k'
  · subst hk
    rw [dictGet_dictSet_self]
    rfl
  · rw [dictGet_dictSet_ne _ _ _ _ hk]
    exact h

theorem mem_keys_dictSet [BEq α] [LawfulBEq α] (d : List (α × β)) (k : α) (v : β) (x : α) :
    x ∈ (dictSet d k v).map Prod.fst ↔ x ∈ d.map Prod.fst ∨ x = k := by
  induction d with
  | nil => simp [dictSet]
  | cons hd tl ih =>
      obtain ⟨a, b⟩ := hd
      by_cases ha : a == k
      · have haa : a = k := eq_of_beq ha
        subst haa
        simp only [dictSet, ha, if_true, List.map, List.mem_cons]
        tauto
      · simp only [dictSet, ha, Bool.false_eq_true, if_false, List.map, List.mem_cons, ih]
        tauto

theorem dictSet_keys_nodup [BEq α] [LawfulBEq α] (d : List (α × β)) (k : α) (v : β)
    (h : (d.map Prod.fst).Nodup) : ((dictSet d k v).map Prod.fst).Nodup := by
  induction d with
  | nil => simp [dictSet]
  | cons hd tl ih =>
      obtain ⟨a, b⟩ := hd
      simp only [List.map, List.nodup_cons] at h
      obtain ⟨hna, hnd⟩ := h
      by_cases ha : a == k
      · simp only [dictSet, ha, if_true, List.map, List.nodup_cons]
        exact ⟨hna, hnd⟩
      · have hak : a ≠ k := by
          intro he
          rw [he] at ha
          simp at ha
        simp only [dictSet, ha, Bool.false_eq_true, if_false, List.map, List.nodup_cons]
        refine ⟨fun hmem => ?_, ih hnd⟩
        rcases (mem_keys_dictSet tl k v a).mp hmem with h1 | h1
        · exact hna h1
        · exact hak h1

theorem foldl_dictSet_nodup [BEq α] [LawfulBEq α] (l : List γ) (kf : γ → α) (vf : γ → β)
    (base : List (α × β)) (hb : (base.map Prod.fst).Nodup) :
    ((l.foldl (fun acc p => dictSet acc (kf p) (vf p)) base).map Prod.fst).Nodup := by
  induction l generalizing base with
  | nil => simpa using hb
  | cons hd tl ih => exact ih _ (dictSet_keys_nodup _ _ _ hb)

theorem foldl_dictSet_isSome_mono [BEq α] [LawfulBEq α] (l : List γ) (kf : γ → α)
    (vf : γ → β) (base : List (α × β)) (k : α) (h : (dictGet base k).isSome = true) :
    (dictGet (l.foldl (fun acc p => dictSet acc (kf p) (vf p)) base) k).isSome = true := by
  induction l generalizing base with
  | nil => simpa using h
  | cons hd tl ih => exact ih _ (dictGet_dictSet_isSome _ _ _ _ h)

theorem foldl_dictSet_isSome_of_mem [BEq α] [LawfulBEq α] (l : List γ) (kf : γ → α)
    (vf : γ → β) (x : γ) (hx : x ∈ l) (base : List (α × β)) :
    (dictGet (l.foldl (fun acc p => dictSet acc (kf p) (vf p)) base) (kf x)).isSome
      = true := by
  induction l generalizing base with
  | nil => simp at hx
  | cons hd tl ih =>
      rcases List.mem_cons.mp hx with h1 | h1
      · subst h1
        exact foldl_dictSet_isSome_mono tl kf vf _ _
          (by rw [dictGet_dictSet_self]; rfl)
      · exact ih h1 _

theorem filter_key_nil_of_not_mem [BEq α] [LawfulBEq α] (d : List (α × β)) (k : α)
    (h : k ∉ d.map Prod.fst) : d.filter (fun p => p.1 == k) = [] := by
  induction d with
  | nil => rfl
  | cons hd tl ih =>
      obtain ⟨a, b⟩ := hd
      simp only [List.map, List.mem_cons, not_or] at h
      have ha : (a == k) = false := beq_eq_false_iff_ne.mpr (fun he => h.1 he.symm)
      simp only [List.filter_cons, ha, Bool.false_eq_true, if_false]
      exact ih h.2

theorem count_key_eq_one [BEq α] [LawfulBEq α] (d : List (α × β)) (k : α)
    (hn : (d.map Prod.fst).Nodup) (hk : (dictGet d k).isSome = true) :
    (d.filter (fun p => p.1 == k)).length = 1 := by
  induction d with
  | nil => simp [dictGet] at hk
  | cons hd tl ih =>
      obtain ⟨a, b⟩ := hd
      simp only [List.map, List.nodup_cons] at hn
      by_cases ha : a == k
      · have hak : a = k := eq_of_beq ha
        have htl : k ∉ tl.map Prod.fst := by
          rw [← hak]
          exact hn.1
        simp [List.filter_cons, ha, filter_key_nil_of_not_mem tl k htl]
      · simp only [dictGet, ha, Bool.false_eq_true, if_false] at hk
        simp only [List.filter_cons, ha, Bool.false_eq_true, if_false]
        exact ih hn.2 hk

theorem foldl_dictSet_lookup_untouched [BEq α] [LawfulBEq α] (l : List (α × β))
    (base : List (α × β)) (k : α) (hnotin : ∀ p ∈ l, p.1 ≠ k) :
    dictGet (l.foldl (fun acc p => dictSet acc p.1 p.2) base) k = dictGet base k := by
  induction l generalizing base with
  | nil => rfl
  | cons hd tl ih =>
      simp only [List.foldl]
      rw [ih _ (fun p hp => hnotin p (List.mem_cons_of_mem hd hp))]
      exact dictGet_dictSet_ne _ _ _ _ (hnotin hd (List.mem_cons_self hd tl))

theorem foldl_dictSet_lookup_wins [BEq α] [LawfulBEq α] (l : List (α × β))
    (base : List (α × β)) (k : α) (v : β) (hn : (l.map Prod.fst).Nodup)
    (h : dictGet l k = some v) :
    dictGet (l.foldl (fun acc p => dictSet acc p.1 p.2) base) k = some v := by
  induction l generalizing base with
  | nil => simp [dictGet] at h
  | cons hd tl ih =>
      obtain ⟨a, b⟩ := hd
      simp only [List.map, List.nodup_cons] at hn
      by_cases ha : a == k
      · have hak : a = k := eq_of_beq ha
        simp only [dictGet, ha, if_true, Option.some_inj] at h
        subst h
        simp only [List.foldl]
        rw [foldl_dictSet_lookup_untouched tl _ k
          (fun p hp he => hn.1 (by rw [← hak] at he; rw [← he]; exact List.mem_map_of_mem Prod.fst hp))]
        rw [← hak]
        exact dictGet_dictSet_self _ _ _
      · simp only [dictGet, ha, Bool.false_eq_true, if_false] at h
        simp only [List.foldl]
        exact ih _ hn.2 h

/-! ### Claim C10 -/

/-- C10: `get_room` inverts the room map to key items by their `name` and
then merges the connected-client map over it.  Hence (i) when two
distinct cells hold items with the same name, the merged map holds
exactly one binding for that name, and (ii) every connected client id
binding overrides whatever the inverted item map held for that key — in
particular a client whose id equals an item name replaces the entry of
that item.  The `get_room` response wraps exactly this merged map. -/
theorem C10_get_room_merge (g : Game) (conn : List (PyVal × String))
    (k1 k2 n : String) (it1 it2 : Item)
    (hm1 : (k1, it1) ∈ g.room) (hm2 : (k2, it2) ∈ g.room) (hne : k1 ≠ k2)
    (hn1 : it1.name = n) (hn2 : it2.name = n)
    (hconn : (conn.map Prod.fst).Nodup) :
    ((g.get_room_items conn).filter (fun p => p.1 == PyVal.pstr n)).length = 1 ∧
    (∀ cid p, dictGet conn cid = some p →
        dictGet (g.get_room_items conn) cid = some p) ∧
    g.get_room conn
      = .pdict [("room", .pdict ((g.get_room_items conn).map
          fun p => (pyKeyStr p.1, .pstr p.2)))] := by
  have hbase : (dictGet
      (g.room.foldl (fun acc p => dictSet acc (PyVal.pstr p.2.name) p.1) [])
      (PyVal.pstr n)).isSome = true := by
    have h := foldl_dictSet_isSome_of_mem g.room
      (fun p => PyVal.pstr p.2.name) (fun p => p.1) (k1, it1) hm1 []
    simpa [hn1] using h
  refine ⟨?_, ?_, rfl⟩
  · simp only [Game.get_room_items]
    apply count_key_eq_one
    · exact foldl_dictSet_nodup conn (fun p => p.1) (fun p => p.2) _
        (foldl_dictSet_nodup g.room (fun p => PyVal.pstr p.2.name) (fun p => p.1) []
          (by simp))
    · exact foldl_dictSet_isSome_mono conn (fun p => p.1) (fun p => p.2) _ _ hbase
  · intro cid p hp
    simp only [Game.get_room_items]
    exact foldl_dictSet_lookup_wins conn _ cid p hconn hp

/-- Witness for C10: two chests at distinct cells plus a connected client
whose id is the item name `chest`; the merged map holds a single `chest`
binding and it is the position of the client. -/
theorem C10_get_room_merge_witness :
    ((Game.get_room_items { clients := [], room := [("0:0", chestItem), ("2:2", chestItem)] }
        [(.pstr "chest", "1:1")]).filter (fun p => p.1 == PyVal.pstr "chest")).length = 1 ∧
    dictGet (Game.get_room_items { clients := [], room := [("0:0", chestItem), ("2:2", chestItem)] }
        [(.pstr "chest", "1:1")]) (.pstr "chest") = some "1:1" := by
  have h := C10_get_room_merge
    { clients := [], room := [("0:0", chestItem), ("2:2", chestItem)] }
    [(.pstr "chest", "1:1")] "0:0" "2:2" "chest" chestItem chestItem
    (by simp) (by simp) (by decide) rfl rfl (by simp)
  exact ⟨h.1, h.2.1 (.pstr "chest") "1:1" rfl⟩

/-! ### Claims C1 and C2 -/

/-- A freshly started room server around an engine (empty log, no
checkpoint, no connections). -/
def baseServer (g : Game) : ServerState :=
  { engine := g, logFile := [], log_length := 0, ckpt := none, ckptNew := none,
    connections := [], socket_id_map := [], errors := 0 }

/-- One well-formed mutating command as a log line. -/
def replayLine : String := "\x7b\"method\": \"add_client\", \"client\": \"a\"\x7d\n"

/-- C1: replay is claimed to dispatch log lines without re-appending
them, leaving the log and `log_length` unchanged.  The code calls
`_parse_command(jdata)` with `read_from_log` left at its default
`False`, so the replayed line is appended to the log again (and
`log_length` grows), even though the command itself is dispatched. -/
theorem C1_replay_appends_to_log :
    (load_from_log { baseServer (Game.init 1 1 1) with logFile := [replayLine] } 0).logFile
        = [replayLine, replayLine] ∧
    (load_from_log { baseServer (Game.init 1 1 1) with logFile := [replayLine] } 0).log_length
        = 1 ∧
    dictGet (load_from_log { baseServer (Game.init 1 1 1) with
        logFile := [replayLine] } 0).engine.clients (.pstr "a") = some (4, 4) :=
  ⟨rfl, rfl, rfl⟩

/-- Counterexample to C2: on a fresh room server, a `get_room` request
is appended to the command log, and an `up` request for a client that is
not in the room is answered with an error and is appended as well. -/
theorem C2_counterexample_queries_logged :
    ((parse_command (baseServer (Game.init 1 1 1))
        (.pdict [("method", .pstr "get_room"), ("client", .pstr "a")]) false 0).1.logFile
      = ["\x7b\"method\": \"get_room\", \"client\": \"a\"\x7d\n"]) ∧
    ((parse_command (baseServer (Game.init 1 1 1))
        (.pdict [("method", .pstr "up"), ("client", .pstr "a")]) false 0).2
      = .ok (.pdict [("error", .pstr "client not in room")])) ∧
    ((parse_command (baseServer (Game.init 1 1 1))
        (.pdict [("method", .pstr "up"), ("client", .pstr "a")]) false 0).1.log_length
      = 1) :=
  ⟨rfl, rfl, rfl⟩

/-- C2 (amended): an incoming command is appended to the log exactly when
it carries both `method` and `client` fields, its method names a command
of the engine command map, and the dispatched handler returns without
raising — whether or not the engine answers with an error, and including
`get_room`. -/
theorem C2_logging_characterization (s : ServerState) (fields : List (String × PyVal))
    (oracle : Nat) (h : s.log_length < 100) :
    ((parse_command s (.pdict fields) false oracle).1.logFile = s.logFile ∨
      (parse_command s (.pdict fields) false oracle).1.logFile
        = s.logFile ++ [pyDumps (.pdict fields) ++ "\n"]) ∧
    ((parse_command s (.pdict fields) false oracle).1.logFile
        = s.logFile ++ [pyDumps (.pdict fields) ++ "\n"]
      ↔ dictHasKey fields "method" = true ∧ dictHasKey fields "client" = true
        ∧ (∃ m, dictGet fields "method" = some (.pstr m)
             ∧ commandMapKeys.contains m = true)
        ∧ (parse_command s (.pdict fields) false oracle).2.isOk = true) := by
  have hne_app : ∀ x : String, ¬ (s.logFile = s.logFile ++ [x]) := by
    intro x he
    have hl := congrArg List.length he
    simp at hl
  by_cases hM : dictHasKey fields "method" = true
  · by_cases hC : dictHasKey fields "client" = true
    · obtain ⟨mv, hmv⟩ : ∃ mv, dictGet fields "method" = some mv :=
        Option.isSome_iff_exists.mp hM
      simp only [parse_command, hM, hC, Bool.and_self, Bool.not_true, Bool.false_eq_true,
        if_false, hmv, Option.getD_some]
      cases hB : dictGet fields "broadcast_addr" <;>
        simp only [hB] <;>
        cases mv with
        | pstr mname =>
            by_cases hK : commandMapKeys.contains mname = true
            · simp only [hK, if_true]
              split
              · refine ⟨Or.inl (by trivial), fun hx => absurd hx (hne_app _), ?_⟩
                rintro ⟨-, -, -, hok⟩
                exact absurd hok (by simp [Except.isOk, Except.toBool])
              · rename_i resp engine2 hd
                have hgt : ¬ (s.log_length + 1 > 100) := by omega
                simp only [Bool.not_false, if_true, logAppend, hgt, if_false]
                by_cases hre : respHasError resp = true
                · simp only [hre, if_true]
                  refine ⟨Or.inr (by trivial), fun _ => ?_, fun _ => by trivial⟩
                  exact ⟨by trivial, by trivial,
                    ⟨mname, by first | exact hmv | rfl, hK⟩, by rfl⟩
                · have href : respHasError resp = false := by simpa using hre
                  simp only [href, Bool.false_eq_true, if_false]
                  refine ⟨Or.inr (by trivial), fun _ => ?_, fun _ => by trivial⟩
                  exact ⟨by trivial, by trivial,
                    ⟨mname, by first | exact hmv | rfl, hK⟩, by rfl⟩
            · have hKf : commandMapKeys.contains mname = false := by simpa using hK
              simp only [hKf, Bool.false_eq_true, if_false]
              refine ⟨Or.inl (by trivial), fun hx => absurd hx (hne_app _), ?_⟩
              rintro ⟨-, -, ⟨m, hm, hcont⟩, -⟩
              have hmm : mname = m := by
                first
                | exact Option.some_inj.mp (by simpa using hm)
                | simpa using hm
              rw [← hmm, hKf] at hcont
              exact Bool.noConfusion hcont
        | pbool b =>
            refine ⟨Or.inl (by trivial), fun hx => absurd hx (hne_app _), ?_⟩
            rintro ⟨-, -, ⟨m, hm, -⟩, -⟩
            simp at hm
        | pint n =>
            refine ⟨Or.inl (by trivial), fun hx => absurd hx (hne_app _), ?_⟩
            rintro ⟨-, -, ⟨m, hm, -⟩, -⟩
            simp at hm
        | plist l =>
            refine ⟨Or.inl (by trivial), fun hx => absurd hx (hne_app _), ?_⟩
            rintro ⟨-, -, ⟨m, hm, -⟩, -⟩
            simp at hm
        | pdict f2 =>
            refine ⟨Or.inl (by trivial), fun hx => absurd hx (hne_app _), ?_⟩
            rintro ⟨-, -, ⟨m, hm, -⟩, -⟩
            simp at hm
    · have hCf : dictHasKey fields "client" = false := by simpa using hC
      simp only [parse_command, hCf, Bool.and_false, Bool.not_false, if_true]
      refine ⟨Or.inl (by trivial), fun hx => absurd hx (hne_app _), ?_⟩
      rintro ⟨-, h2, -⟩
      first
      | exact Bool.noConfusion h2
      | exact absurd h2 (by simp [hCf])
  · have hMf : dictHasKey fields "method" = false := by simpa using hM
    simp only [parse_command, hMf, Bool.false_and, Bool.not_false, if_true]
    refine ⟨Or.inl (by trivial), fun hx => absurd hx (hne_app _), ?_⟩
    rintro ⟨h1, -, -⟩
    first
    | exact Bool.noConfusion h1
    | exact absurd h1 (by simp [hMf])

/-- Witness for C2: on a fresh server, a `get_room` request satisfies the
logging conditions and is appended. -/
theorem C2_logging_characterization_witness :
    (parse_command (baseServer (Game.init 1 1 1))
        (.pdict [("method", .pstr "get_room"), ("client", .pstr "a")]) false 0).1.logFile
      = (baseServer (Game.init 1 1 1)).logFile
        ++ [pyDumps (.pdict [("method", .pstr "get_room"), ("client", .pstr "a")]) ++ "\n"] := by
  have h := C2_logging_characterization (baseServer (Game.init 1 1 1))
    [("method", .pstr "get_room"), ("client", .pstr "a")] 0 (by decide)
  exact h.2.mpr ⟨by rfl, by rfl, ⟨"get_room", by rfl, by rfl⟩, by rfl⟩

/-! ### Claim C8 -/

/-- C8: when a successful append pushes `log_length` beyond 100, a
checkpoint is written — two JSON lines, the item map then the
client-position map — the transient `name.ckpt.new` is gone (renamed
over `name.ckpt`), the log is truncated and `log_length` reset to 0. -/
theorem C8_checkpoint_on_overflow (s : ServerState) (fields : List (String × PyVal))
    (mname : String) (oracle : Nat)
    (h100 : 100 ≤ s.log_length)
    (hM : dictGet fields "method" = some (.pstr mname))
    (hC : dictHasKey fields "client" = true)
    (hK : commandMapKeys.contains mname = true)
    (hok : (parse_command s (.pdict fields) false oracle).2.isOk = true) :
    (parse_command s (.pdict fields) false oracle).1.ckpt
      = some
        [ pyDumps (roomToPy (parse_command s (.pdict fields) false oracle).1.engine.room)
            ++ "\n"
        , pyDumps (clientsToPy
            (parse_command s (.pdict fields) false oracle).1.engine.clients) ++ "\n" ] ∧
    (parse_command s (.pdict fields) false oracle).1.logFile = [] ∧
    (parse_command s (.pdict fields) false oracle).1.log_length = 0 ∧
    (parse_command s (.pdict fields) false oracle).1.ckptNew = none := by
  have hMk : dictHasKey fields "method" = true := by simp [dictHasKey, hM]
  simp only [parse_command, hMk, hC, Bool.and_self, Bool.not_true, Bool.false_eq_true,
    if_false, hM, Option.getD_some, hK, if_true] at hok ⊢
  cases hB : dictGet fields "broadcast_addr" <;>
    simp only [hB] at hok ⊢ <;>
    split at hok
  all_goals try (exfalso; revert hok; simp [Except.isOk, Except.toBool]; done)
  all_goals
    (rename_i resp engine2 hd
     have hgt : 100 < s.log_length + 1 := by omega
     have htt : ((true : Bool) = true) = True := by simp
     simp only [hd, Bool.not_false, htt, if_true, logAppend]
     by_cases hre : respHasError resp = true <;>
       simp only [hre, if_true, Bool.false_eq_true, if_false] <;>
       split <;>
       rename_i hcond <;>
       first
         | exact ⟨by trivial, by trivial, by trivial, by trivial⟩
         | (exfalso; revert hcond; simpa using hgt))

/-- A server with an empty-room engine whose log already holds 100
entries. -/
def overflowServer : ServerState :=
  { engine := { clients := [], room := [] }, logFile := [], log_length := 100,
    ckpt := none, ckptNew := none, connections := [], socket_id_map := [], errors := 0 }

/-- Witness for C8: the server at `log_length = 100` accepts
`add_client`; the checkpoint holds the dumped room and client map, the
log is empty and the counter reset. -/
theorem C8_checkpoint_on_overflow_witness :
    (parse_command overflowServer
        (.pdict [("method", .pstr "add_client"), ("client", .pstr "a")]) false 0).1.ckpt
      = some ["\x7b\x7d\n", "\x7b\"a\": \"4:4\"\x7d\n"] ∧
    (parse_command overflowServer
        (.pdict [("method", .pstr "add_client"), ("client", .pstr "a")]) false 0).1.logFile
      = [] ∧
    (parse_command overflowServer
        (.pdict [("method", .pstr "add_client"), ("client", .pstr "a")]) false 0).1.log_length
      = 0 := by
  have h := C8_checkpoint_on_overflow overflowServer
    [("method", .pstr "add_client"), ("client", .pstr "a")] "add_client" 0
    (by decide) rfl rfl rfl rfl
  exact ⟨by rw [h.1]; rfl, h.2.1, h.2.2.1⟩

/-! ### Claim C4 -/

def isPdict : PyVal → Bool
  | .pdict _ => true
  | _ => false

/-- Counterexample to C4: a two-line checkpoint whose first line is not
JSON makes `_load_server` raise `json.JSONDecodeError` — only
`FileNotFoundError` is caught. -/
theorem C4_counterexample_bad_json_raises :
    load_server (Game.init 1 1 1) (some ["nope\n", "\x7b\x7d\n"])
      = .error "JSONDecodeError" := rfl

/-- C4 (amended): a checkpoint with the wrong number of lines, a missing
checkpoint file, and a two-line checkpoint whose lines parse as JSON
values that are not both dicts are all ignored without raising, keeping
the engine state; but a line that fails to parse as JSON raises an
uncaught `JSONDecodeError` (see the counterexample). -/
theorem C4_malformed_checkpoint_ignored (g : Game) (lines : List String)
    (l1 l2 : String) (v w : PyVal) :
    (lines.length ≠ 2 → load_server g (some lines) = .ok g) ∧
    (load_server g none = .ok g) ∧
    (jsonLoads l1 = .ok v → jsonLoads l2 = .ok w →
      (isPdict v = false ∨ isPdict w = false) →
      load_server g (some [l1, l2]) = .ok g) := by
  refine ⟨fun hlen => ?_, rfl, fun hv hw hnd => ?_⟩
  · simp only [load_server]
    rw [if_pos hlen]
    rfl
  · simp only [load_server]
    rw [if_neg (by simp : ¬(([l1, l2] : List String).length ≠ 2))]
    simp only [List.getD_cons_zero, List.getD_cons_succ]
    cases v <;> cases w <;>
      first
        | (rw [hv, hw]; rfl)
        | simp [isPdict] at hnd

/-- Witness for C4: a one-line checkpoint is ignored and the engine keeps
its state. -/
theorem C4_malformed_checkpoint_ignored_witness :
    load_server (Game.init 1 1 1) (some ["\x7b\x7d\n"]) = .ok (Game.init 1 1 1) :=
  (C4_malformed_checkpoint_ignored (Game.init 1 1 1) ["\x7b\x7d\n"] "" ""
    (.pint 0) (.pint 0)).1 (by decide)
